import Mathlib

/-!
A shallow embedding, in Lean 4, of the core of the `crossbeam` repository
(epoch-based memory reclamation and the concurrent queues built on it),
together with theorems settling the frozen claims about it.

Modelling conventions:
* Raw machine pointers are modelled as `Nat` addresses, with `0` playing the
  role of the null pointer (the source stores `*mut T` in an `AtomicPtr` and
  uses `ptr::null_mut()` as the null value).
* `usize` arithmetic that the source performs with `wrapping_add` /
  `wrapping_sub` is modelled on `Nat` with an explicit `% 2 ^ 64`
  (the source targets 64-bit platforms; see `exclusive_x64.rs`).
* Functions that the source runs on shared memory are modelled as explicit
  state-passing functions.  Where the result of a racy read-modify-write
  depends on other threads (the epoch CAS in `try_collect`, the pointers
  unlinked while traversing the participant list), the interference is an
  explicit parameter of the Lean function; a sequential execution corresponds
  to the "no interference" instantiation.
* Rust `panic!`s coming from `std::sync::atomic` ordering checks are modelled
  by returning `none`.
-/

namespace Crossbeam

/-- The modulus `2 ^ 64` of `usize` arithmetic on the 64-bit targets the
source supports. -/
def U64 : Nat := 2 ^ 64

/-! ## `std::sync::atomic` primitives

The source delegates its atomic accesses to the Rust standard library.  The
functional content used by the claims is: `compare_and_swap` returns the
previous value and stores the new one exactly when the previous value equals
the expected one; `load` panics on `Release`/`AcqRel`; `store` panics on
`Acquire`/`AcqRel` (these panics are documented in the source on
`Atomic::load` / `Atomic::store`). -/

/-- Source `std::sync::atomic::Ordering`. -/
inductive MemOrd : Type
  | Relaxed
  | Release
  | Acquire
  | AcqRel
  | SeqCst
deriving DecidableEq, Repr

/-- Source `AtomicPtr::compare_and_swap` (value form): given the stored value, the
expected old value and the new value, return `(previous value, value stored
afterwards)`. -/
def AtomicPtr.compare_and_swap (stored old new : Nat) : Nat × Nat :=
  if stored = old then (stored, new) else (stored, stored)

/-- Source `AtomicPtr::load`: panics (`none`) when the ordering is `Release` or
`AcqRel`, otherwise returns the stored value. -/
def AtomicPtr.load (ord : MemOrd) (stored : Nat) : Option Nat :=
  match ord with
  | .Release => none
  | .AcqRel => none
  | _ => some stored

/-- Source `AtomicPtr::store`: panics (`none`) when the ordering is `Acquire` or
`AcqRel`, otherwise returns the value now stored. -/
def AtomicPtr.store (ord : MemOrd) (val _stored : Nat) : Option Nat :=
  match ord with
  | .Acquire => none
  | .AcqRel => none
  | _ => some val

/-! ## `mem/epoch/mod.rs`: `Owned`, `Shared`, `Atomic` -/

/-- Source `Owned<T>`: an owned heap allocation, identified by its raw address
(`Owned::as_raw`). -/
structure Owned where
  raw : Nat
deriving DecidableEq, Repr

/-- Source `Shared<'a, T>`: a shared reference, identified by its raw address
(`Shared::as_raw`).  The lifetime/guard bookkeeping is erased. -/
structure SharedRef where
  raw : Nat
deriving DecidableEq, Repr

/-- Source `Shared::from_raw`: null becomes `None`. -/
def SharedRef.from_raw (raw : Nat) : Option SharedRef :=
  if raw = 0 then none else some ⟨raw⟩

/-- Source `opt_shared_into_raw`: raw pointer of an optional shared reference,
null (`0`) for `None`. -/
def opt_shared_into_raw (val : Option SharedRef) : Nat :=
  (val.map SharedRef.raw).getD 0

/-- Source `opt_owned_as_raw`: raw pointer of an optional owned pointer, null (`0`)
for `None`. -/
def opt_owned_as_raw (val : Option Owned) : Nat :=
  (val.map Owned.raw).getD 0

/-- Source `opt_owned_into_raw`: same address as `opt_owned_as_raw` (the
`mem::forget` only affects ownership, not the address). -/
def opt_owned_into_raw (val : Option Owned) : Nat :=
  opt_owned_as_raw val

/-- Source `Atomic::load`: `self.ptr.load(ord)` converted through
`Shared::from_raw`.  `none` models the panic on a bad ordering. -/
def Atomic.load (stored : Nat) (ord : MemOrd) : Option (Option SharedRef) :=
  (AtomicPtr.load ord stored).map SharedRef.from_raw

/-- Source `Atomic::store`: `self.ptr.store(opt_owned_into_raw(val), ord)`; the
result is the stored raw pointer, `none` models the panic on a bad
ordering. -/
def Atomic.store (stored : Nat) (val : Option Owned) (ord : MemOrd) :
    Option Nat :=
  AtomicPtr.store ord (opt_owned_into_raw val) stored

/-- Source `Atomic::cas`: compare-and-swap from a `Shared` to an `Owned` pointer.
Returns the `Result` together with the raw pointer stored afterwards.  On
success the `Owned` is forgotten (ownership moves into the structure); on
failure `Err` returns the caller's `new` value. -/
def Atomic.cas (stored : Nat) (old : Option SharedRef) (new : Option Owned) :
    Except (Option Owned) Unit × Nat :=
  let r := AtomicPtr.compare_and_swap stored (opt_shared_into_raw old)
    (opt_owned_as_raw new)
  if r.1 = opt_shared_into_raw old then
    (Except.ok (), r.2)
  else
    (Except.error new, r.2)

/-- Claim C4: `Atomic::cas(old, new, ord)` returns `Ok(())` exactly when the
stored raw pointer equals the raw pointer of `old` (null for `None`); in that
case the stored pointer becomes `new`'s raw pointer, and on failure it
returns `Err` carrying the very same `Owned` value the caller passed in while
the stored pointer is left unchanged. -/
theorem atomic_cas_spec (stored : Nat) (old : Option SharedRef)
    (new : Option Owned) :
    ((Atomic.cas stored old new).1 = Except.ok () ↔
      stored = opt_shared_into_raw old)
    ∧ (stored = opt_shared_into_raw old →
        (Atomic.cas stored old new).2 = opt_owned_as_raw new)
    ∧ (stored ≠ opt_shared_into_raw old →
        (Atomic.cas stored old new).1 = Except.error new
        ∧ (Atomic.cas stored old new).2 = stored) := by
  unfold Atomic.cas AtomicPtr.compare_and_swap
  by_cases h : stored = opt_shared_into_raw old <;> simp [h]

/-- Claim C7: `Atomic::load` panics exactly on `Release`/`AcqRel` orderings,
and `Atomic::store` panics exactly on `Acquire`/`AcqRel` orderings; with any
other ordering both complete without panicking. -/
theorem atomic_load_store_ordering_panics (stored : Nat)
    (val : Option Owned) (ord : MemOrd) :
    (Atomic.load stored ord = none ↔
      ord = MemOrd.Release ∨ ord = MemOrd.AcqRel)
    ∧ (Atomic.store stored val ord = none ↔
      ord = MemOrd.Acquire ∨ ord = MemOrd.AcqRel) := by
  cases ord <;>
    simp [Atomic.load, Atomic.store, AtomicPtr.load, AtomicPtr.store]

/-! ## `epoch/garbage.rs`: garbage bags

A bag item is `(raw pointer, type-erased destructor)`; here an item is just
its raw pointer, and "running the destructor" of an item is modelled by the
item appearing in the list of freed pointers that `collect` returns.  The
size check `mem::size_of::<T>() > 0` of `Bag::insert` is modelled by passing
`size_of T` as an explicit `Nat` argument. -/

/-- Source `Bag`: a thread-local bag of garbage items (a `Vec<Item>`). -/
abbrev Bag : Type := List Nat

/-- Source `Bag::insert::<T>(elem)`: pushes `(elem, free::<T>)` onto the vector only
when `size_of::<T>() > 0`. -/
def Bag.insert (sizeOfT : Nat) (elem : Nat) (b : Bag) : Bag :=
  if sizeOfT > 0 then List.concat b elem else b

/-- Source `Bag::len`. -/
def Bag.len (b : Bag) : Nat := List.length b

/-- Source `Bag::collect`: frees every item in the bag (first component: the
pointers whose destructors run) and leaves the bag empty. -/
def Bag.collect (b : Bag) : List Nat × Bag := (b, [])

/-- Source `Local`: the three generations of thread-local garbage.  (The `pending`
incremental-collection queue of `epoch/garbage.rs` belongs to the budgeted
collector, which the epoch participant in `mem/epoch` does not call; it is
not modelled.) -/
structure LocalGarbage where
  old : Bag
  cur : Bag
  new : Bag
deriving DecidableEq, Repr

/-- Source `Local::new`. -/
def LocalGarbage.empty : LocalGarbage := ⟨[], [], []⟩

/-- Source `Local::insert`: inserts into the `new` generation. -/
def LocalGarbage.insert (sizeOfT elem : Nat) (l : LocalGarbage) :
    LocalGarbage :=
  { l with new := Bag.insert sizeOfT elem l.new }

/-- Modelled from the spec: the no-argument `Local::collect()` called by
`Participant::enter` / `Participant::try_collect` lives in
`mem/epoch/garbage.rs`, which is absent from `src/`.  Per spec §4.2/§4.3 it
frees the `old` bag and rotates the bags `new → cur → old`. -/
def LocalGarbage.collect (l : LocalGarbage) : List Nat × LocalGarbage :=
  let (freed, _) := Bag.collect l.old
  (freed, { old := l.cur, cur := l.new, new := [] })

/-- Source `Local::size`: `old.len() + cur.len() + new.len()`. -/
def LocalGarbage.size (l : LocalGarbage) : Nat :=
  Bag.len l.old + Bag.len l.cur + Bag.len l.new

/-- Source `ConcBag`: a concurrent (Treiber-stack) bag of donated local `Bag`s. -/
abbrev ConcBag : Type := List Bag

/-- Source `ConcBag::insert`: prepend the donated bag. -/
def ConcBag.insert (b : Bag) (c : ConcBag) : ConcBag := b :: c

/-- Source `ConcBag::collect`: swap the head out and free every item of every bag
(first component: the freed pointers), leaving the bag empty. -/
def ConcBag.collect (c : ConcBag) : List Nat × ConcBag :=
  (c.flatten, [])

/-- Source `ConcBag::has_garbage` (declared in the `mem/epoch` garbage module,
absent from `src/`; per `EpochState::has_garbage` usage it reports whether
the stack of donated bags is nonempty). -/
def ConcBag.has_garbage (c : ConcBag) : Bool := !(List.isEmpty c)

/-! ## GC control scopes (`mem/epoch/mod.rs`, C8)

The participant's `try_gc` flag is a plain thread-local boolean; the state a
scope manipulates is just that `Bool`. -/

/-- Source `GCControl`: scope guard storing whether gc was previously enabled. -/
structure GCControl where
  previous : Bool
deriving DecidableEq, Repr

/-- Source `is_gc_enabled()`: reads the participant's `try_gc` flag. -/
def is_gc_enabled (try_gc : Bool) : Bool := try_gc

/-- Source `__get_gc_guard_for(turn_on)`: records the current `try_gc` value in the
guard, then stores `turn_on` into the flag.  Returns the guard and the new
flag value. -/
def __get_gc_guard_for (turn_on : Bool) (try_gc : Bool) : GCControl × Bool :=
  ({ previous := try_gc }, turn_on)

/-- Source `impl Drop for GCControl`: stores the recorded previous value back into
the flag. -/
def GCControl.drop (g : GCControl) (_try_gc : Bool) : Bool := g.previous

/-- A well-nested arrangement of `set_gc_scope!` scopes: `done` is code that
does not touch the flag; `scope v inner after` enters a scope that sets the
flag to `v`, runs `inner` within it, drops the guard, then runs `after`. -/
inductive GcScopes : Type
  | done : GcScopes
  | scope (v : Bool) (inner after : GcScopes) : GcScopes
deriving DecidableEq, Repr

/-- Run nested GC scopes over the `try_gc` flag, entering each scope via
`__get_gc_guard_for` and leaving it via `GCControl.drop`. -/
def runScopes : GcScopes → Bool → Bool
  | .done, s => s
  | .scope v inner after, s =>
    let gs := __get_gc_guard_for v s
    let sInner := runScopes inner gs.2
    runScopes after (gs.1.drop sInner)

/-- Claim C8: `__get_gc_guard_for(v)` records the current `try_gc` flag as
the guard's previous value and sets the flag to `v`; dropping the guard
restores the recorded value; hence for arbitrarily nested enable/disable
scopes, `is_gc_enabled()` after a scope exits equals its value just before
the scope was entered (in particular a disable scope nested inside an enable
scope is honoured while it runs and undone afterwards). -/
theorem gc_control_scopes (v s t : Bool) (sc : GcScopes) :
    ((__get_gc_guard_for v s).1.previous = is_gc_enabled s
      ∧ is_gc_enabled (__get_gc_guard_for v s).2 = v)
    ∧ ((__get_gc_guard_for v s).1.drop t = s)
    ∧ is_gc_enabled (runScopes sc s) = is_gc_enabled s := by
  refine ⟨⟨rfl, rfl⟩, rfl, ?_⟩
  induction sc generalizing s with
  | done => rfl
  | scope v inner after ihInner ihAfter =>
    simp only [runScopes, is_gc_enabled] at *
    rw [ihAfter]
    rfl

/-- Claim C9: scheduling a zero-sized value for deferred free is a no-op:
`Bag::insert` adds an item only when `size_of::<T>() > 0`, so an insert with
item size `0` leaves the bag (and the thread-local generations) unchanged,
and collecting afterwards frees exactly the pointers that were already
there — the zero-sized value's destructor is never run by the collector. -/
theorem bag_insert_zero_sized_noop (p : Nat) (b : Bag) (l : LocalGarbage) :
    Bag.insert 0 p b = b
    ∧ LocalGarbage.insert 0 p l = l
    ∧ Bag.collect (Bag.insert 0 p b) = Bag.collect b
    ∧ (Bag.collect (Bag.insert 0 p b)).1.contains p = b.contains p := by
  refine ⟨rfl, ?_, rfl, rfl⟩
  simp [LocalGarbage.insert, Bag.insert]

/-! ## `mem/epoch/participant.rs`, `global.rs`, `mod.rs`: the epoch world -/

/-- What `Participant::try_collect` reads of another participant while
traversing the participant list: its `active` flag, critical-section counter
and local epoch. -/
structure PartView where
  active : Bool
  in_critical : Nat
  epoch : Nat
deriving DecidableEq, Repr

/-- Source `EpochState` (`global.rs`): global epoch counter, global-GC pressure
flag, the three global garbage bags and the participant list. -/
structure EpochState where
  epoch : Nat
  do_global : Bool
  garbage : Fin 3 → ConcBag
  participants : List PartView

/-- Source `EpochState::has_garbage`: do any of the three global bags hold
garbage? -/
def EpochState.has_garbage (g : EpochState) : Bool :=
  (List.finRange 3).any fun i => ConcBag.has_garbage (g.garbage i)

/-- Source `EpochState::set_garbage_flag`: raise `do_global` when there is global
garbage and the flag is down, lower it when there is none and it is up. -/
def EpochState.set_garbage_flag (g : EpochState) : EpochState :=
  let hg := g.has_garbage
  if hg && !g.do_global then { g with do_global := true }
  else if !hg && g.do_global then { g with do_global := false }
  else g

/-- The caller's `Participant` record (`participant.rs`); the `try_gc` flag
is the thread-local GC-enable flag read by `pin` (its declaration lives in
the thread-local module absent from `src/`; it is a plain boolean). -/
structure Participant where
  epoch : Nat
  in_critical : Nat
  garbage : LocalGarbage
  try_gc : Bool
deriving DecidableEq, Repr

/-- The state a participant operation acts on: the global epoch state plus
the calling thread's own participant record. -/
structure World where
  global : EpochState
  self : Participant

/-- Source `Participant::enter`: bump the reentrancy counter; on the 0 → 1
transition, fence, then adopt the global epoch, collecting (rotating) the
local garbage if the local epoch was behind. -/
def Participant.enter (w : World) : World :=
  let new_count := w.self.in_critical + 1
  let self1 := { w.self with in_critical := new_count }
  if new_count > 1 then { w with self := self1 }
  else
    let global_epoch := w.global.epoch
    if global_epoch ≠ self1.epoch then
      let (_, g') := self1.garbage.collect
      { w with self := { self1 with epoch := global_epoch, garbage := g' } }
    else { w with self := self1 }

/-- Source `Participant::exit`: decrement the reentrancy counter.  (The source
decrements a `usize`; the claims only exercise it after a matching
`enter`.) -/
def Participant.exit (w : World) : World :=
  { w with self := { w.self with in_critical := w.self.in_critical - 1 } }

/-- Source `impl Drop for Guard`: dropping a pin guard exits the critical
section. -/
def Guard.drop (w : World) : World := Participant.exit w

/-- Source `Participant::reclaim` / `Guard::unlinked`: append the pointer to the
`new` generation of the caller's local garbage (via the local garbage
`insert`, carrying the item's size for the zero-size check). -/
def Participant.reclaim (sizeOfT ptr : Nat) (w : World) : World :=
  { w with self :=
    { w.self with garbage := w.self.garbage.insert sizeOfT ptr } }

/-- Index into the three global garbage bags: the source indexes the array
with `x % 3`. -/
def gIdx (n : Nat) : Fin 3 := ⟨n % 3, Nat.mod_lt _ (by norm_num)⟩

/-- Result of `Participant::try_collect`: the returned boolean, the new
state, and the pointers freed from the caller's old local generation and
from the collected global bag. -/
structure TryCollectResult where
  ok : Bool
  w : World
  freedLocal : List Nat
  freedGlobal : List Nat

/-- Source `Participant::try_collect` (participant.rs, lines 86–110).

Interference parameters (the function runs concurrently with other
threads):
* `trav`: the pointers of inactive participant records that the list
  traversal unlinks into the caller's `new` bag (`guard.unlinked` inside
  `Iter::next`); whether a given inactive record is unlinked depends on the
  shared `writable` flag, so the list is environment-determined.  A
  sequential run with no dead participants has `trav = []`.
* `epochAtCas`: the value the global epoch register holds when the
  `compare_and_swap` executes; the CAS succeeds exactly when it still equals
  the initially loaded `cur_epoch`.  A sequential run has
  `epochAtCas = cur_epoch`.

Traversal yields exactly the active participants; the scan aborts when one
of them is in a critical section at a different epoch.  On CAS success the
epoch advances to `cur_epoch.wrapping_add(1)`, the caller adopts it, the
local bags are rotated (freeing `old`), the global bag at index
`new_epoch.wrapping_add(1) % 3` is collected and the garbage flag is
refreshed. -/
def Participant.try_collect (w : World) (trav : List Nat)
    (epochAtCas : Nat) : TryCollectResult :=
  let cur_epoch := w.global.epoch
  let w := { w with self := { w.self with garbage :=
    { w.self.garbage with new := w.self.garbage.new ++ trav } } }
  if (w.global.participants.filter (·.active)).any
      (fun p => decide (p.in_critical > 0) && decide (p.epoch ≠ cur_epoch))
  then
    { ok := false, w := w, freedLocal := [], freedGlobal := [] }
  else
    let new_epoch := (cur_epoch + 1) % U64
    if epochAtCas ≠ cur_epoch then
      { ok := false, w := { w with global := { w.global with epoch := epochAtCas } },
        freedLocal := [], freedGlobal := [] }
    else
      let w := { w with global := { w.global with epoch := new_epoch } }
      let w := { w with self := { w.self with epoch := new_epoch } }
      let (freedLocal, lg) := w.self.garbage.collect
      let w := { w with self := { w.self with garbage := lg } }
      let i := gIdx ((new_epoch + 1) % U64)
      let (freedGlobal, cb) := ConcBag.collect (w.global.garbage i)
      let w := { w with global :=
        { w.global with garbage := Function.update w.global.garbage i cb } }
      let w := { w with global := w.global.set_garbage_flag }
      { ok := true, w := w, freedLocal := freedLocal,
        freedGlobal := freedGlobal }

/-- Perform `N` nested `enter` calls. -/
def enterN : Nat → World → World
  | 0, w => w
  | n + 1, w => enterN n (Participant.enter w)

/-- Perform `N` guard drops (`exit` calls). -/
def exitN : Nat → World → World
  | 0, w => w
  | n + 1, w => exitN n (Guard.drop w)

theorem enter_in_critical (w : World) :
    (Participant.enter w).self.in_critical = w.self.in_critical + 1 := by
  unfold Participant.enter
  dsimp only
  split
  · rfl
  · split <;> rfl

theorem enterN_in_critical (n : Nat) (w : World) :
    (enterN n w).self.in_critical = w.self.in_critical + n := by
  induction n generalizing w with
  | zero => rfl
  | succ n ih =>
    rw [enterN, ih, enter_in_critical]
    omega

theorem exitN_in_critical (n : Nat) (w : World) :
    (exitN n w).self.in_critical = w.self.in_critical - n := by
  induction n generalizing w with
  | zero => rfl
  | succ n ih =>
    rw [exitN, ih]
    simp only [Guard.drop, Participant.exit]
    omega

/-- Claim C6: for every participant state and every `N ≥ 0`, performing `N`
nested `enter()` calls (pins) followed by `N` `exit()` calls (LIFO guard
drops) leaves the participant's critical-section counter `in_critical` equal
to its initial value. -/
theorem reentrant_pins_balance (w : World) (n : Nat) :
    (exitN n (enterN n w)).self.in_critical = w.self.in_critical := by
  rw [exitN_in_critical, enterN_in_critical]
  omega

/-! ## `pin`, `pin_nogc` and the GC thresholds (`mem/epoch/mod.rs`) -/

/-- Source `GC_THRESH` (mod.rs line 486): threshold for automatically advancing the
epoch. -/
def GC_THRESH : Nat := 32

/-- Source `GC_MIGRATE_THRESH`: threshold for moving garbage to global when GC is
disabled. -/
def GC_MIGRATE_THRESH : Nat := GC_THRESH * 4

/-- Source `Participant::garbage_size`. -/
def Participant.garbage_size (w : World) : Nat := w.self.garbage.size

/-- Modelled from the spec: `Participant::enter_nogc`, called by `_pin_nogc`,
is absent from `src/` (the `participant.rs` present only has `enter`).  Per
spec §4.2 pinning bumps the reentrancy counter and, on the 0 → 1 transition,
records the global epoch; per the `pin_nogc` doc comment it does not collect
garbage. -/
def Participant.enter_nogc (w : World) : World :=
  let new_count := w.self.in_critical + 1
  let self1 := { w.self with in_critical := new_count }
  if new_count > 1 then { w with self := self1 }
  else { w with self := { self1 with epoch := w.global.epoch } }

/-- Source `Participant::migrate_garbage`: donate the three local generations to
the global bags (`old` at `(epoch - 1) % 3`, `cur` at `epoch % 3`, `new` at
`global_epoch % 3`, with wrapping `usize` arithmetic), reset the local
garbage and refresh the garbage flag. -/
def Participant.migrate_garbage (w : World) : World :=
  let cur_epoch := w.self.epoch
  let lg := w.self.garbage
  let w := { w with self := { w.self with garbage := LocalGarbage.empty } }
  let i1 := gIdx ((cur_epoch + (U64 - 1)) % U64)
  let g1 := Function.update w.global.garbage i1
    (ConcBag.insert lg.old (w.global.garbage i1))
  let i2 := gIdx cur_epoch
  let g2 := Function.update g1 i2 (ConcBag.insert lg.cur (g1 i2))
  let i3 := gIdx w.global.epoch
  let g3 := Function.update g2 i3 (ConcBag.insert lg.new (g2 i3))
  let w := { w with global := { w.global with garbage := g3 } }
  { w with global := w.global.set_garbage_flag }

/-- Observable GC actions a `pin` call may take. -/
inductive GcEvent : Type
  | collectAttempt
  | migrate
deriving DecidableEq, Repr

/-- Source `_pin_gc`: enter, then attempt a collection when the local garbage
count exceeds `GC_THRESH`.  The `trav` / `epochAtCas` interference
parameters are forwarded to `try_collect`. -/
def _pin_gc (w : World) (trav : List Nat) (epochAtCas : Nat) :
    World × List GcEvent :=
  let w1 := Participant.enter w
  if Participant.garbage_size w1 > GC_THRESH then
    ((Participant.try_collect w1 trav epochAtCas).w, [GcEvent.collectAttempt])
  else (w1, [])

/-- Source `_pin_nogc`: enter without collecting; unless wait-free, migrate the
local garbage to the global bags when its count exceeds
`GC_MIGRATE_THRESH`. -/
def _pin_nogc (w : World) (waitfree : Bool) : World × List GcEvent :=
  let w1 := Participant.enter_nogc w
  if !waitfree && decide (Participant.garbage_size w1 > GC_MIGRATE_THRESH) then
    (Participant.migrate_garbage w1, [GcEvent.migrate])
  else (w1, [])

/-- Source `pin()`: `_pin_gc` when the thread-local `try_gc` flag is set, else
`_pin_nogc(p, false)`. -/
def pin (w : World) (trav : List Nat) (epochAtCas : Nat) :
    World × List GcEvent :=
  if w.self.try_gc then _pin_gc w trav epochAtCas else _pin_nogc w false

/-- Source `pin_nogc()`: `_pin_nogc(p, false)`. -/
def pin_nogc (w : World) : World × List GcEvent := _pin_nogc w false

theorem enter_nogc_garbage_size (w : World) :
    Participant.garbage_size (Participant.enter_nogc w) =
      Participant.garbage_size w := by
  unfold Participant.enter_nogc
  dsimp only
  split <;> rfl

theorem pin_nogc_events (w : World) :
    (pin_nogc w).2 =
      if Participant.garbage_size w > GC_MIGRATE_THRESH
      then [GcEvent.migrate] else [] := by
  simp only [pin_nogc, _pin_nogc, enter_nogc_garbage_size, Bool.not_false,
    Bool.true_and]
  by_cases h : Participant.garbage_size w > GC_MIGRATE_THRESH <;> simp [h]

theorem pin_gc_events (w : World) (trav : List Nat) (epochAtCas : Nat)
    (hgc : w.self.try_gc = true) :
    (pin w trav epochAtCas).2 =
      if Participant.garbage_size (Participant.enter w) > GC_THRESH
      then [GcEvent.collectAttempt] else [] := by
  simp only [pin, hgc, if_true, _pin_gc]
  by_cases h : Participant.garbage_size (Participant.enter w) > GC_THRESH <;>
    simp [h]

/-- Claim C5: with GC locally enabled, `pin()` attempts a collection
(`try_collect`) exactly when the participant's local garbage count (as
checked after entering the critical section) exceeds 32 items; with GC
disabled, `pin()` — and `pin_nogc()` unconditionally — migrates the local
garbage to the global bags exactly when the local garbage count exceeds 128
items. -/
theorem pin_gc_thresholds (w : World) (trav : List Nat) (epochAtCas : Nat) :
    (GcEvent.collectAttempt ∈ (pin w trav epochAtCas).2 ↔
      w.self.try_gc = true
      ∧ Participant.garbage_size (Participant.enter w) > 32)
    ∧ (GcEvent.migrate ∈ (pin w trav epochAtCas).2 ↔
      w.self.try_gc = false ∧ Participant.garbage_size w > 128)
    ∧ (GcEvent.migrate ∈ (pin_nogc w).2 ↔ Participant.garbage_size w > 128)
    ∧ GC_THRESH = 32 ∧ GC_MIGRATE_THRESH = 128 := by
  have hmig : GC_MIGRATE_THRESH = 128 := rfl
  have hnogc : GcEvent.migrate ∈ (pin_nogc w).2 ↔
      Participant.garbage_size w > 128 := by
    rw [pin_nogc_events, hmig]
    by_cases h : Participant.garbage_size w > 128 <;> simp [h]
  refine ⟨?_, ?_, hnogc, rfl, rfl⟩
  · by_cases hgc : w.self.try_gc
    · rw [pin_gc_events w trav epochAtCas hgc]
      by_cases h : Participant.garbage_size (Participant.enter w) > 32 <;>
        simp [GC_THRESH, h, hgc]
    · have : (pin w trav epochAtCas).2 = (pin_nogc w).2 := by
        simp [pin, pin_nogc, hgc]
      rw [this, pin_nogc_events, hmig]
      by_cases h : Participant.garbage_size w > 128 <;>
        simp [h, hgc]
  · by_cases hgc : w.self.try_gc
    · rw [pin_gc_events w trav epochAtCas hgc]
      by_cases h : Participant.garbage_size (Participant.enter w) > GC_THRESH <;>
        simp [h, hgc]
    · have : (pin w trav epochAtCas).2 = (pin_nogc w).2 := by
        simp [pin, pin_nogc, hgc]
      rw [this, pin_nogc_events, hmig]
      by_cases h : Participant.garbage_size w > 128 <;>
        simp [h, hgc]

theorem set_garbage_flag_epoch (g : EpochState) :
    (EpochState.set_garbage_flag g).epoch = g.epoch := by
  unfold EpochState.set_garbage_flag
  dsimp only
  split
  · rfl
  · split <;> rfl

theorem set_garbage_flag_garbage (g : EpochState) :
    (EpochState.set_garbage_flag g).garbage = g.garbage := by
  unfold EpochState.set_garbage_flag
  dsimp only
  split
  · rfl
  · split <;> rfl

/-- The index of the global bag that `try_collect` frees after advancing the
epoch from `E`: `new_epoch.wrapping_add(1) % 3` for
`new_epoch = E.wrapping_add(1)`. -/
def collectedBagIdx (E : Nat) : Fin 3 := gIdx (((E + 1) % U64 + 1) % U64)

/-- Claim C1, amended for the source's wrapping `usize` arithmetic:
`try_collect`, called by a pinned participant, returns `false` exactly when
the participant-list traversal yields some (active) participant whose
critical-section counter is `> 0` and whose local epoch differs from the
observed global epoch `E`, or the CAS of the global epoch from `E` to
`E.wrapping_add(1)` fails; otherwise it advances the global epoch to
`(E + 1) mod 2⁶⁴`, sets the caller's local epoch to that value, frees the
caller's old local garbage generation while rotating the local bags, frees
the global garbage bag at index `((E + 1 mod 2⁶⁴) + 1 mod 2⁶⁴) mod 3`
(leaving the other two untouched), and returns `true`. -/
theorem try_collect_spec (w : World) (trav : List Nat) (epochAtCas : Nat) :
    ((Participant.try_collect w trav epochAtCas).ok = false ↔
      (∃ p ∈ w.global.participants,
        p.active = true ∧ 0 < p.in_critical ∧ p.epoch ≠ w.global.epoch)
      ∨ epochAtCas ≠ w.global.epoch)
    ∧ ((Participant.try_collect w trav epochAtCas).ok = true →
      (Participant.try_collect w trav epochAtCas).w.global.epoch =
        (w.global.epoch + 1) % U64
      ∧ (Participant.try_collect w trav epochAtCas).w.self.epoch =
        (w.global.epoch + 1) % U64
      ∧ (Participant.try_collect w trav epochAtCas).freedLocal =
        w.self.garbage.old
      ∧ (Participant.try_collect w trav epochAtCas).w.self.garbage.old =
        w.self.garbage.cur
      ∧ (Participant.try_collect w trav epochAtCas).w.self.garbage.cur =
        w.self.garbage.new ++ trav
      ∧ (Participant.try_collect w trav epochAtCas).w.self.garbage.new = []
      ∧ (Participant.try_collect w trav epochAtCas).freedGlobal =
        (w.global.garbage (collectedBagIdx w.global.epoch)).flatten
      ∧ (Participant.try_collect w trav epochAtCas).w.global.garbage
          (collectedBagIdx w.global.epoch) = []
      ∧ ∀ i : Fin 3, i ≠ collectedBagIdx w.global.epoch →
          (Participant.try_collect w trav epochAtCas).w.global.garbage i =
            w.global.garbage i) := by
  have hscan : ((w.global.participants.filter (·.active)).any
      (fun p => decide (p.in_critical > 0)
        && decide (p.epoch ≠ w.global.epoch))) = true ↔
      ∃ p ∈ w.global.participants,
        p.active = true ∧ 0 < p.in_critical ∧ p.epoch ≠ w.global.epoch := by
    simp only [List.any_eq_true, List.mem_filter, Bool.and_eq_true,
      decide_eq_true_eq]
    constructor
    · rintro ⟨p, ⟨hp, ha⟩, h1, h2⟩
      exact ⟨p, hp, ha, h1, h2⟩
    · rintro ⟨p, hp, ha, h1, h2⟩
      exact ⟨p, ⟨hp, ha⟩, h1, h2⟩
  by_cases hs : ((w.global.participants.filter (·.active)).any
      (fun p => decide (p.in_critical > 0)
        && decide (p.epoch ≠ w.global.epoch))) = true
  · constructor
    · simp only [Participant.try_collect]
      rw [if_pos (by simpa using hs)]
      simp only [true_iff]
      exact Or.inl (hscan.mp hs)
    · intro hok
      exfalso
      simp only [Participant.try_collect] at hok
      rw [if_pos (by simpa using hs)] at hok
      simp at hok
  · have hs' := hs
    rw [hscan] at hs'
    by_cases hcas : epochAtCas = w.global.epoch
    · constructor
      · simp only [Participant.try_collect]
        rw [if_neg (by simpa using hs), if_neg (by simp [hcas])]
        simp only [Bool.true_eq_false, false_iff]
        push_neg
        refine ⟨?_, by simpa using hcas⟩
        intro p hp ha h1
        by_contra h2
        exact hs' ⟨p, hp, ha, h1, h2⟩
      · intro _
        simp only [Participant.try_collect]
        rw [if_neg (by simpa using hs), if_neg (by simp [hcas])]
        refine ⟨?_, rfl, rfl, rfl, rfl, rfl, rfl, ?_, ?_⟩
        · rw [set_garbage_flag_epoch]
        · rw [set_garbage_flag_garbage]
          exact Function.update_same _ _ _
        · intro i hi
          rw [set_garbage_flag_garbage]
          exact Function.update_noteq hi _ _
    · constructor
      · simp only [Participant.try_collect]
        rw [if_neg (by simpa using hs), if_pos (by simp [hcas])]
        simp only [true_iff]
        exact Or.inr hcas
      · intro hok
        exfalso
        simp only [Participant.try_collect] at hok
        rw [if_neg (by simpa using hs), if_pos (by simp [hcas])] at hok
        simp at hok

/-- The concrete state exhibiting the wrap-around divergence: the global
epoch register holds `2⁶⁴ - 1` (`usize::MAX`), every global bag is nonempty,
the participant list is empty, and the caller is pinned. -/
def wrapWorld : World :=
  { global :=
    { epoch := 2 ^ 64 - 1
      do_global := false
      garbage := fun _ => [[7]]
      participants := [] }
    self :=
    { epoch := 2 ^ 64 - 1
      in_critical := 1
      garbage := ⟨[], [], []⟩
      try_gc := true } }

/-- Counterexample to claim C1 as stated: at observed global epoch
`E = 2⁶⁴ - 1` (reachable after `2⁶⁴ - 1` epoch advances of the wrapping
`usize` counter), `try_collect` succeeds, yet the global epoch is *not*
advanced to `E + 1` (it wraps to `0`), the caller's local epoch is not set
to `E + 1`, and the global garbage bag at index `(E + 1 + 1) mod 3 = 2` is
*not* freed (the bag at index `1` is freed instead). -/
theorem try_collect_wrap_counterexample :
    (Participant.try_collect wrapWorld [] (2 ^ 64 - 1)).ok = true
    ∧ (Participant.try_collect wrapWorld [] (2 ^ 64 - 1)).w.global.epoch ≠
        (2 ^ 64 - 1) + 1
    ∧ (Participant.try_collect wrapWorld [] (2 ^ 64 - 1)).w.self.epoch ≠
        (2 ^ 64 - 1) + 1
    ∧ ((2 ^ 64 - 1) + 1 + 1) % 3 = 2
    ∧ (Participant.try_collect wrapWorld [] (2 ^ 64 - 1)).w.global.garbage
        (gIdx ((2 ^ 64 - 1) + 1 + 1)) ≠ []
    ∧ (Participant.try_collect wrapWorld [] (2 ^ 64 - 1)).w.global.garbage
        ⟨1, by norm_num⟩ = [] := by
  decide

/-! ## `sync/spsc_queue.rs`: the bounded SPSC ring (C2, C10)

The ring is a chain of 64-slot segments.  Because `acquire_segment`
allocates a fresh segment whenever the producer's index rolls over a
64-boundary (see below), the pair (tail block, `tail % 64`) is in bijection
with the value of the monotonically increasing `tail` counter, so a written
slot is modelled as a `(global index, value)` pair keyed by the counter.
`usize` counters wrap at `2⁶⁴`. -/

/-- Source `SEG_SIZE` of `spsc_queue.rs` (64 slots per block). -/
def SPSC_SEG_SIZE : Nat := 64

/-- The `SpscQueue` state shared by the two endpoints. -/
structure SpscQueue (T : Type) where
  tail : Nat
  head : Nat
  tail_cache : Nat
  prod_alive : Bool
  cons_alive : Bool
  slots : List (Nat × T)
deriving DecidableEq, Repr

/-- Source `SpscQueue::acquire_segment`: its first line is
`return Some(Box::into_raw(Box::new(Segment::new())));`, unconditionally
handing back a freshly allocated segment; everything after it (the
`cache_stack` bounded free-list) is unreachable.  So it never returns
`None`. -/
def SpscQueue.acquire_segment (_alloc : Bool) : Option Unit := some ()

/-- Source `SpscQueue::new(cache_size)`: head and tail start at 1 with one initial
block; the cache-priming loop hands `cache_size - 1` fresh segments to
`release_segment`, whose own first lines free them immediately, so it does
not affect the state. -/
def SpscQueue.new (T : Type) (_cache_size : Nat) : SpscQueue T :=
  { tail := 1, head := 1, tail_cache := 1
    prod_alive := true, cons_alive := true, slots := [] }

/-- Source `SpscQueue::try_construct(ctor, alloc)` (the closure is modelled by the
value it constructs): compute the write index; on a segment boundary acquire
a segment — returning `Err(ctor)` only if `alloc` is set and the acquisition
failed (it never fails, see `acquire_segment`) — then write the slot and
advance `tail`.  There is no comparison against `head` anywhere. -/
def SpscQueue.try_construct {T : Type} (q : SpscQueue T) (v : T)
    (alloc : Bool) : Except T (SpscQueue T) :=
  let ctail := q.tail
  let next_tail := (ctail + 1) % U64
  let write_ind := ctail % SPSC_SEG_SIZE
  if write_ind = 0 ∧ alloc = true ∧ SpscQueue.acquire_segment alloc = none
  then
    Except.error v
  else
    Except.ok { q with tail := next_tail, slots := (ctail, v) :: q.slots }

/-- Source `SpscQueue::capacity` (line 198): literally `{0}`. -/
def SpscQueue.capacity {T : Type} (_q : SpscQueue T) : Nat := 0

/-- The producer endpoint. -/
structure BoundedProducer (T : Type) where
  spsc : SpscQueue T
deriving DecidableEq, Repr

/-- The consumer endpoint. -/
structure BoundedConsumer (T : Type) where
  spsc : SpscQueue T
deriving DecidableEq, Repr

/-- Source `BoundedProducer::is_consumer_alive`. -/
def BoundedProducer.is_consumer_alive {T : Type} (p : BoundedProducer T) :
    Bool :=
  p.spsc.cons_alive

/-- Source `BoundedProducer::try_construct`: bail out with the constructor if the
consumer is dead, else delegate to `SpscQueue::try_construct` with
`alloc = false`. -/
def BoundedProducer.try_construct {T : Type} (p : BoundedProducer T)
    (v : T) : Except T (BoundedProducer T) :=
  if !p.is_consumer_alive then Except.error v
  else
    match SpscQueue.try_construct p.spsc v false with
    | Except.error e => Except.error e
    | Except.ok q => Except.ok ⟨q⟩

/-- Source `BoundedProducer::try_push(val)`: bail out with the value if the
consumer is dead, else `try_construct(|| val)` (an `Err` maps the closure
back to the value). -/
def BoundedProducer.try_push {T : Type} (p : BoundedProducer T) (v : T) :
    Except T (BoundedProducer T) :=
  if !p.is_consumer_alive then Except.error v
  else p.try_construct v

/-- Source `BoundedProducer::capacity`. -/
def BoundedProducer.capacity {T : Type} (p : BoundedProducer T) : Nat :=
  SpscQueue.capacity p.spsc

/-- Source `BoundedConsumer::capacity`. -/
def BoundedConsumer.capacity {T : Type} (c : BoundedConsumer T) : Nat :=
  SpscQueue.capacity c.spsc

deriving instance DecidableEq for Except

/-- Is an `Except` an `Ok`? -/
def exceptIsOk {ε α : Type} : Except ε α → Bool
  | Except.ok _ => true
  | Except.error _ => false

/-- The SPSC producer's push path never reports "full": it succeeds exactly
when the consumer is alive, whatever the queue contents (`try_construct`
with `alloc = false` has no failing branch, and `acquire_segment`
unconditionally allocates). -/
theorem spsc_try_push_ok_iff_consumer_alive {T : Type}
    (p : BoundedProducer T) (v : T) :
    exceptIsOk (BoundedProducer.try_push p v) = p.spsc.cons_alive := by
  unfold BoundedProducer.try_push BoundedProducer.try_construct
    SpscQueue.try_construct BoundedProducer.is_consumer_alive
  by_cases h : p.spsc.cons_alive <;>
    simp [h, exceptIsOk, SpscQueue.acquire_segment]

/-- Apply `k` repeated `try_push v` calls from the producer, keeping the state on
(impossible) failure. -/
def pushIter {T : Type} (p : BoundedProducer T) (v : T) : Nat →
    BoundedProducer T
  | 0 => p
  | n + 1 =>
    match BoundedProducer.try_push (pushIter p v n) v with
    | Except.ok p' => p'
    | Except.error _ => pushIter p v n

/-- Claim C2 fails on the code: replaying the source's own `push_bounded`
test (`spsc_queue.rs` lines 373–388) — a queue from `new(1)`, 63 successful
pushes of `1` — the 64th call `try_push(2)`, which the test asserts to be
`Err(2)` ("full"), in fact succeeds: the producer allocates a fresh segment
and keeps growing the queue.  The full condition described by the claim is
never even computed (the producer never reads the head index). -/
theorem spsc_push_bounded_test_divergence :
    (List.range 64).all
      (fun k => exceptIsOk
        (BoundedProducer.try_push (pushIter ⟨SpscQueue.new Nat 1⟩ 1 k) 2))
      = true
    ∧ BoundedProducer.try_push (pushIter ⟨SpscQueue.new Nat 1⟩ 1 63) 2 ≠
        Except.error 2
    ∧ (pushIter ⟨SpscQueue.new Nat 1⟩ 1 63).spsc.tail = 64 := by
  decide

/-- Claim C10: `SpscQueue::capacity()` returns 0 for every queue state and
every `cache_size` argument passed to `SpscQueue::new`, and consequently
`BoundedProducer::capacity()` and `BoundedConsumer::capacity()` always
return 0. -/
theorem spsc_capacity_always_zero {T : Type} (q : SpscQueue T)
    (p : BoundedProducer T) (c : BoundedConsumer T) (cache_size : Nat) :
    SpscQueue.capacity q = 0
    ∧ SpscQueue.capacity (SpscQueue.new T cache_size) = 0
    ∧ BoundedProducer.capacity p = 0
    ∧ BoundedConsumer.capacity c = 0 :=
  ⟨rfl, rfl, rfl, rfl⟩

/-! ## `sync/seg_queue.rs`: the segmented MPMC queue, single-threaded (C3)

A `Segment` is a 32-slot array with `low`/`high` indices and a next
pointer; the queue is the chain of segments from `head` to the end, with
`tail` pointing at the last segment.  `data j = some v` models slot `j`
holding `v` with its ready-bit set; `none` models an uninitialised slot.

The claim is about a single-threaded execution, which resolves the
concurrent control flow as follows (each resolution is proved unreachable
or deterministic under the invariant `SegInv`):
* the `continue` retries in `push` (`tail.high ≥ SEG_SIZE`, `i ≥ SEG_SIZE`)
  cannot fire, because the push that fills a segment links a fresh tail
  within the same call, so between operations the tail's `high < SEG_SIZE`;
* the `low` CAS in `try_pop` always succeeds;
* the ready-bit spin in `try_pop` terminates at once (the slot below
  `high` is already written), and the head-advance spin finds `next`
  already published (a filled segment has linked its successor);
* the outer retry in `try_pop` cannot fire: when the inner loop breaks,
  `head.next` is null. -/

/-- Source `SEG_SIZE` of `seg_queue.rs` (32 slots). -/
def SEG_SIZE : Nat := 32

/-- One segment: `low`/`high` indices and the slot array (value present ↔
written with ready-bit set). -/
structure Segment (T : Type) where
  low : Nat
  high : Nat
  data : Nat → Option T

/-- Source `Segment::new`: empty indices, no slot ready. -/
def Segment.fresh (T : Type) : Segment T := ⟨0, 0, fun _ => none⟩

/-- The slots of a segment still to be consumed: indices from `low` up to
`min high SEG_SIZE` (the bound used by `try_pop`). -/
def Segment.items {T : Type} (s : Segment T) : List T :=
  (List.range' s.low (min s.high SEG_SIZE - s.low)).filterMap s.data

/-- The effect on a segment of a push that claims index `i = high`
(`fetch_add`), writes slot `i` and release-stores its ready-bit. -/
def Segment.write {T : Type} (s : Segment T) (t : T) : Segment T :=
  { s with high := s.high + 1
           data := fun j => if j = s.high then some t else s.data j }

/-- Source `SegQueue::push(t)` acting on the chain: claim index `i = tail.high`,
write slot `i` and set its ready-bit, and if the segment is now full link a
fresh segment as the new tail. -/
def pushSeg {T : Type} (t : T) : List (Segment T) → List (Segment T)
  | [] => []
  | [s] =>
    if s.high + 1 = SEG_SIZE then [s.write t, Segment.fresh T]
    else [s.write t]
  | s :: r :: rest => s :: pushSeg t (r :: rest)

/-- Source `SegQueue::try_pop()` acting on the chain: read `head.low`; if it is
below `min(head.high, SEG_SIZE)`, claim the slot (the CAS succeeds
single-threaded), read it once ready, and advance `head` to the published
next segment when the slot was the segment's last; otherwise the queue is
empty (`head.next` is null under the invariant) and `None` is returned. -/
def tryPopSeg {T : Type} : List (Segment T) → Option T × List (Segment T)
  | [] => (none, [])
  | s :: rest =>
    if s.low < min s.high SEG_SIZE then
      let v := s.data s.low
      if s.low + 1 = SEG_SIZE then (v, rest)
      else (v, { s with low := s.low + 1 } :: rest)
    else
      (none, s :: rest)

/-- Source `SegQueue<T>`: the chain of live segments, head first, tail last. -/
structure SegQueue (T : Type) where
  segs : List (Segment T)

/-- Source `SegQueue::new`: a single sentinel segment, pointed at by both `head`
and `tail`. -/
def SegQueue.new (T : Type) : SegQueue T := ⟨[Segment.fresh T]⟩

/-- Source `SegQueue::push`. -/
def SegQueue.push {T : Type} (q : SegQueue T) (t : T) : SegQueue T :=
  ⟨pushSeg t q.segs⟩

/-- Source `SegQueue::try_pop`. -/
def SegQueue.try_pop {T : Type} (q : SegQueue T) : Option T × SegQueue T :=
  ((tryPopSeg q.segs).1, ⟨(tryPopSeg q.segs).2⟩)

/-- Push every element of `l` in order. -/
def SegQueue.pushAll {T : Type} (q : SegQueue T) (l : List T) : SegQueue T :=
  l.foldl SegQueue.push q

/-- Perform `n` successive `try_pop` calls, collecting the results in order. -/
def SegQueue.popN {T : Type} (q : SegQueue T) : Nat →
    List (Option T) × SegQueue T
  | 0 => ([], q)
  | n + 1 =>
    let r := q.try_pop
    let rest := SegQueue.popN r.2 n
    (r.1 :: rest.1, rest.2)

/-- Every slot below `high` has been written (its ready-bit is set). -/
def SegOk {T : Type} (s : Segment T) : Prop :=
  ∀ j, j < s.high → (s.data j).isSome

/-- Invariant of the chain strictly behind the head segment: each segment
has `low = 0` (pops only touch the head), every segment but the last is
full (`high = SEG_SIZE` — it linked its successor when it filled), and the
last one is still fillable (`high < SEG_SIZE`). -/
def restInv {T : Type} : List (Segment T) → Prop
  | [] => False
  | [s] => SegOk s ∧ s.low = 0 ∧ s.high < SEG_SIZE
  | s :: r :: rest =>
    SegOk s ∧ s.low = 0 ∧ s.high = SEG_SIZE ∧ restInv (r :: rest)

/-- Single-threaded invariant of the whole chain: as `restInv`, except the
head may have consumed a prefix of its slots (`low > 0`), and a head that
reaches `low = SEG_SIZE` has already been unlinked. -/
def SegInv {T : Type} : List (Segment T) → Prop
  | [] => False
  | [s] => SegOk s ∧ s.low ≤ s.high ∧ s.high < SEG_SIZE
  | s :: r :: rest =>
    SegOk s ∧ s.low < SEG_SIZE ∧ s.high = SEG_SIZE ∧ restInv (r :: rest)

/-- The queue's abstract contents, head first. -/
def segToList {T : Type} (segs : List (Segment T)) : List T :=
  (segs.map Segment.items).flatten

theorem SEG_SIZE_eq : SEG_SIZE = 32 := rfl

theorem segToList_nil {T : Type} : segToList ([] : List (Segment T)) = [] :=
  rfl

theorem segToList_cons {T : Type} (s : Segment T) (l : List (Segment T)) :
    segToList (s :: l) = s.items ++ segToList l := by
  simp [segToList]

theorem items_fresh {T : Type} : (Segment.fresh T).items = [] := rfl

theorem filterMap_length_of_all_isSome {T : Type} (f : Nat → Option T)
    (l : List Nat) (h : ∀ x ∈ l, (f x).isSome) :
    (l.filterMap f).length = l.length := by
  induction l with
  | nil => rfl
  | cons x xs ih =>
    have hx := h x (List.mem_cons_self x xs)
    obtain ⟨a, ha⟩ := Option.isSome_iff_exists.mp hx
    simp only [List.filterMap_cons, ha, List.length_cons]
    rw [ih fun y hy => h y (List.mem_cons_of_mem _ hy)]

theorem items_length {T : Type} (s : Segment T) (hok : SegOk s) :
    s.items.length = min s.high SEG_SIZE - s.low := by
  unfold Segment.items
  rw [filterMap_length_of_all_isSome, List.length_range']
  intro j hj
  obtain ⟨h1, h2⟩ := List.mem_range'_1.mp hj
  have hmin : min s.high SEG_SIZE ≤ s.high := Nat.min_le_left _ _
  exact hok j (by omega)

theorem segOk_write {T : Type} (s : Segment T) (t : T) (hok : SegOk s) :
    SegOk (s.write t) := by
  intro j hj
  simp only [Segment.write] at hj ⊢
  by_cases h : j = s.high
  · simp [h]
  · simp only [h, if_false]
    exact hok j (by omega)

theorem items_write {T : Type} (s : Segment T) (t : T)
    (hlow : s.low ≤ s.high) (hhigh : s.high < SEG_SIZE) :
    (s.write t).items = s.items ++ [t] := by
  unfold Segment.items Segment.write
  dsimp only
  have h1 : min (s.high + 1) SEG_SIZE = s.high + 1 := by omega
  have h2 : min s.high SEG_SIZE = s.high := by omega
  rw [h1, h2]
  have h3 : s.high + 1 - s.low = (s.high - s.low) + 1 := by omega
  rw [h3, List.range'_concat]
  have h4 : s.low + 1 * (s.high - s.low) = s.high := by omega
  rw [h4, List.filterMap_append]
  congr 1
  · apply List.filterMap_congr
    intro j hj
    obtain ⟨hj1, hj2⟩ := List.mem_range'_1.mp hj
    have hne : j ≠ s.high := by omega
    simp [hne]
  · simp

theorem segOk_fresh {T : Type} : SegOk (Segment.fresh T) := by
  intro j hj
  exact absurd hj (by simp [Segment.fresh])

theorem pushSeg_ne_nil {T : Type} (t : T) (l : List (Segment T))
    (h : l ≠ []) : pushSeg t l ≠ [] := by
  match l with
  | [] => exact absurd rfl h
  | [s] =>
    simp only [pushSeg]
    split <;> simp
  | s :: r :: rest => simp [pushSeg]

theorem restInv_cons {T : Type} (s : Segment T) (l : List (Segment T))
    (h : l ≠ []) :
    restInv (s :: l) ↔
      SegOk s ∧ s.low = 0 ∧ s.high = SEG_SIZE ∧ restInv l := by
  match l with
  | [] => exact absurd rfl h
  | r :: rest => exact Iff.rfl

theorem segInv_cons {T : Type} (s : Segment T) (l : List (Segment T))
    (h : l ≠ []) :
    SegInv (s :: l) ↔
      SegOk s ∧ s.low < SEG_SIZE ∧ s.high = SEG_SIZE ∧ restInv l := by
  match l with
  | [] => exact absurd rfl h
  | r :: rest => exact Iff.rfl

theorem restInv_imp_segInv {T : Type} (l : List (Segment T))
    (h : restInv l) : SegInv l := by
  have hseg := SEG_SIZE_eq
  match l with
  | [] => exact absurd h (by simp [restInv])
  | [s] =>
    obtain ⟨h1, h2, h3⟩ := h
    exact ⟨h1, by omega, h3⟩
  | s :: r :: rest =>
    obtain ⟨h1, h2, h3, h4⟩ := h
    exact ⟨h1, by omega, h3, h4⟩

/-- A push on the chain behind the head preserves `restInv` and appends the
value to the abstract contents. -/
theorem push_rest {T : Type} (t : T) (l : List (Segment T))
    (h : restInv l) :
    restInv (pushSeg t l) ∧ segToList (pushSeg t l) = segToList l ++ [t] := by
  have hseg := SEG_SIZE_eq
  induction l with
  | nil => exact absurd h (by simp [restInv])
  | cons s rest ih =>
    match rest with
    | [] =>
      obtain ⟨hok, hlow0, hhigh⟩ := h
      by_cases hfull : s.high + 1 = SEG_SIZE
      · refine ⟨?_, ?_⟩
        · simp only [pushSeg, hfull, if_pos]
          refine ⟨segOk_write s t hok, hlow0, ?_, ?_⟩
          · simp [Segment.write, hfull]
          · exact ⟨segOk_fresh, rfl, by simp [Segment.fresh]; omega⟩
        · simp only [pushSeg, hfull, if_pos]
          rw [segToList_cons, segToList_cons, segToList_cons, segToList_nil,
            items_fresh, items_write s t (by omega) (by omega)]
          simp
      · refine ⟨?_, ?_⟩
        · simp only [pushSeg, hfull, if_false]
          refine ⟨segOk_write s t hok, hlow0, ?_⟩
          simp only [Segment.write]
          omega
        · simp only [pushSeg, hfull, if_false]
          rw [segToList_cons, segToList_cons, segToList_nil,
            items_write s t (by omega) (by omega)]
          simp
    | r :: rs =>
      obtain ⟨hok, hlow0, hhigh, hrest⟩ := h
      have hp := ih hrest
      have hne : pushSeg t (r :: rs) ≠ [] := pushSeg_ne_nil t _ (by simp)
      refine ⟨?_, ?_⟩
      · show restInv (s :: pushSeg t (r :: rs))
        rw [restInv_cons s _ hne]
        exact ⟨hok, hlow0, hhigh, hp.1⟩
      · show segToList (s :: pushSeg t (r :: rs)) =
          segToList (s :: r :: rs) ++ [t]
        rw [segToList_cons, segToList_cons, hp.2]
        simp

/-- A push preserves the queue invariant and appends the value to the
abstract contents. -/
theorem push_inv {T : Type} (t : T) (l : List (Segment T)) (h : SegInv l) :
    SegInv (pushSeg t l) ∧ segToList (pushSeg t l) = segToList l ++ [t] := by
  have hseg := SEG_SIZE_eq
  match l with
  | [] => exact absurd h (by simp [SegInv])
  | [s] =>
    obtain ⟨hok, hlh, hhigh⟩ := h
    by_cases hfull : s.high + 1 = SEG_SIZE
    · refine ⟨?_, ?_⟩
      · simp only [pushSeg, hfull, if_pos]
        refine ⟨segOk_write s t hok, ?_, ?_, ?_⟩
        · simp only [Segment.write]
          omega
        · simp [Segment.write, hfull]
        · exact ⟨segOk_fresh, rfl, by simp [Segment.fresh]; omega⟩
      · simp only [pushSeg, hfull, if_pos]
        rw [segToList_cons, segToList_cons, segToList_cons, segToList_nil,
          items_fresh, items_write s t (by omega) (by omega)]
        simp
    · refine ⟨?_, ?_⟩
      · simp only [pushSeg, hfull, if_false]
        refine ⟨segOk_write s t hok, ?_, ?_⟩
        · simp only [Segment.write]
          omega
        · simp only [Segment.write]
          omega
      · simp only [pushSeg, hfull, if_false]
        rw [segToList_cons, segToList_cons, segToList_nil,
          items_write s t (by omega) (by omega)]
        simp
  | s :: r :: rs =>
    obtain ⟨hok, hlow, hhigh, hrest⟩ := h
    have hp := push_rest t (r :: rs) hrest
    have hne : pushSeg t (r :: rs) ≠ [] := pushSeg_ne_nil t _ (by simp)
    refine ⟨?_, ?_⟩
    · show SegInv (s :: pushSeg t (r :: rs))
      rw [segInv_cons s _ hne]
      exact ⟨hok, hlow, hhigh, hp.1⟩
    · show segToList (s :: pushSeg t (r :: rs)) =
        segToList (s :: r :: rs) ++ [t]
      rw [segToList_cons, segToList_cons, hp.2]
      simp

theorem items_pop {T : Type} (s : Segment T) (hok : SegOk s)
    (hlt : s.low < min s.high SEG_SIZE) :
    ∃ a, s.data s.low = some a ∧
      s.items = a :: ({ s with low := s.low + 1 } : Segment T).items := by
  have hmin : min s.high SEG_SIZE ≤ s.high := Nat.min_le_left _ _
  have hsome := hok s.low (by omega)
  obtain ⟨a, ha⟩ := Option.isSome_iff_exists.mp hsome
  refine ⟨a, ha, ?_⟩
  unfold Segment.items
  dsimp only
  have h1 : min s.high SEG_SIZE - s.low =
      (min s.high SEG_SIZE - (s.low + 1)) + 1 := by omega
  rw [h1, List.range'_succ, List.filterMap_cons, ha]

theorem items_drained {T : Type} (s : Segment T)
    (h : min s.high SEG_SIZE ≤ s.low) : s.items = [] := by
  unfold Segment.items
  have h1 : min s.high SEG_SIZE - s.low = 0 := by omega
  rw [h1]
  rfl

/-- Single-threaded `try_pop` refines the abstract queue: on an empty queue
it returns `None` and leaves the chain untouched; on a nonempty one it
returns the head of the abstract contents and leaves a chain holding the
tail, with the invariant preserved. -/
theorem pop_sim {T : Type} (l : List (Segment T)) (h : SegInv l) :
    (segToList l = [] → tryPopSeg l = (none, l))
    ∧ (∀ a as, segToList l = a :: as →
        (tryPopSeg l).1 = some a ∧ SegInv (tryPopSeg l).2
        ∧ segToList (tryPopSeg l).2 = as) := by
  have hseg := SEG_SIZE_eq
  match l with
  | [] => exact absurd h (by simp [SegInv])
  | [s] =>
    obtain ⟨hok, hlh, hhigh⟩ := h
    have hmin : min s.high SEG_SIZE = s.high := by omega
    by_cases hlt : s.low < s.high
    · -- nonempty single segment
      have hlt' : s.low < min s.high SEG_SIZE := by omega
      obtain ⟨a, ha, hitems⟩ := items_pop s hok hlt'
      have hnotadv : ¬(s.low + 1 = SEG_SIZE) := by omega
      constructor
      · intro he
        exfalso
        rw [segToList_cons, segToList_nil, List.append_nil, hitems] at he
        exact List.cons_ne_nil _ _ he
      · intro b bs hbs
        rw [segToList_cons, segToList_nil, List.append_nil, hitems] at hbs
        obtain ⟨rfl, rfl⟩ : a = b ∧
            ({ s with low := s.low + 1 } : Segment T).items = bs := by
          exact ⟨(List.cons.injEq _ _ _ _ ▸ hbs).1,
            (List.cons.injEq _ _ _ _ ▸ hbs).2⟩
        simp only [tryPopSeg, hlt', if_pos, hnotadv, if_false]
        refine ⟨by rw [ha], ⟨hok, ?_, hhigh⟩, ?_⟩
        · show s.low + 1 ≤ s.high
          omega
        · rw [segToList_cons, segToList_nil, List.append_nil]
    · -- drained single segment: low = high
      have hdr : s.items = [] := items_drained s (by omega)
      have hcond : ¬(s.low < min s.high SEG_SIZE) := by omega
      constructor
      · intro _
        simp [tryPopSeg, hcond]
      · intro a as habs
        rw [segToList_cons, segToList_nil, List.append_nil, hdr] at habs
        exact absurd habs.symm (List.cons_ne_nil _ _)
  | s :: r :: rs =>
    obtain ⟨hok, hlow, hhigh, hrest⟩ := h
    have hlt' : s.low < min s.high SEG_SIZE := by omega
    obtain ⟨a, ha, hitems⟩ := items_pop s hok hlt'
    constructor
    · intro he
      exfalso
      rw [segToList_cons, hitems, List.cons_append] at he
      exact List.cons_ne_nil _ _ he
    · intro b bs hbs
      rw [segToList_cons, hitems] at hbs
      simp only [List.cons_append, List.cons.injEq] at hbs
      obtain ⟨rfl, hbs⟩ := hbs
      by_cases hadv : s.low + 1 = SEG_SIZE
      · -- last slot of the head segment: the head advances
        have hdr : ({ s with low := s.low + 1 } : Segment T).items = [] := by
          apply items_drained
          show min s.high SEG_SIZE ≤ s.low + 1
          omega
        rw [hdr, List.nil_append] at hbs
        simp only [tryPopSeg, hlt', if_pos, hadv, if_true]
        exact ⟨by rw [ha], restInv_imp_segInv _ hrest, hbs ▸ rfl⟩
      · simp only [tryPopSeg, hlt', if_pos, hadv, if_false]
        refine ⟨by rw [ha], ?_, ?_⟩
        · rw [segInv_cons _ _ (by simp)]
          refine ⟨hok, ?_, hhigh, hrest⟩
          show s.low + 1 < SEG_SIZE
          omega
        · rw [segToList_cons, hbs]

theorem pushAll_sim {T : Type} (l : List T) :
    ∀ segs : List (Segment T), SegInv segs →
      SegInv (SegQueue.pushAll ⟨segs⟩ l).segs
      ∧ segToList (SegQueue.pushAll ⟨segs⟩ l).segs = segToList segs ++ l := by
  induction l with
  | nil =>
    intro segs h
    exact ⟨h, by simp [SegQueue.pushAll]⟩
  | cons t ts ih =>
    intro segs h
    have hp := push_inv t segs h
    have hstep : SegQueue.pushAll ⟨segs⟩ (t :: ts) =
        SegQueue.pushAll ⟨pushSeg t segs⟩ ts := rfl
    have hrec := ih (pushSeg t segs) hp.1
    refine ⟨hstep ▸ hrec.1, ?_⟩
    rw [hstep, hrec.2, hp.2]
    simp

theorem popN_sim {T : Type} (m : List T) :
    ∀ segs : List (Segment T), SegInv segs → segToList segs = m →
      (SegQueue.popN ⟨segs⟩ m.length).1 = m.map some
      ∧ SegInv (SegQueue.popN ⟨segs⟩ m.length).2.segs
      ∧ segToList (SegQueue.popN ⟨segs⟩ m.length).2.segs = [] := by
  induction m with
  | nil =>
    intro segs h he
    exact ⟨rfl, h, he⟩
  | cons a as ih =>
    intro segs h he
    obtain ⟨h1, h2, h3⟩ := (pop_sim segs h).2 a as he
    have hrec := ih (tryPopSeg segs).2 h2 h3
    have hstep : SegQueue.popN ⟨segs⟩ (a :: as).length =
        ((tryPopSeg segs).1 :: (SegQueue.popN ⟨(tryPopSeg segs).2⟩ as.length).1,
          (SegQueue.popN ⟨(tryPopSeg segs).2⟩ as.length).2) := rfl
    rw [hstep]
    exact ⟨by rw [h1, hrec.1]; rfl, hrec.2.1, hrec.2.2⟩

/-- Claim C3: in a single-threaded execution of `SegQueue`, pushing any
sequence of values and then calling `try_pop` once per pushed value returns
exactly that sequence in push (FIFO) order, after which `try_pop` returns
`None` on the now-empty queue (leaving it unchanged). -/
theorem seg_queue_single_thread_fifo {T : Type} (l : List T) :
    ((SegQueue.pushAll (SegQueue.new T) l).popN l.length).1 = l.map some
    ∧ ((SegQueue.pushAll (SegQueue.new T) l).popN l.length).2.try_pop =
        (none, ((SegQueue.pushAll (SegQueue.new T) l).popN l.length).2) := by
  have hnew : SegInv ((SegQueue.new T).segs) := by
    refine ⟨segOk_fresh, Nat.le_refl 0, ?_⟩
    show (0 : Nat) < SEG_SIZE
    rw [SEG_SIZE_eq]
    omega
  have hto : segToList (SegQueue.new T).segs = [] := rfl
  have heta : (⟨(SegQueue.new T).segs⟩ : SegQueue T) = SegQueue.new T := rfl
  have hpush := pushAll_sim l (SegQueue.new T).segs hnew
  rw [heta] at hpush
  have hfin := popN_sim l (SegQueue.pushAll (SegQueue.new T) l).segs hpush.1
    (by rw [hpush.2, hto, List.nil_append])
  have heta2 : (⟨(SegQueue.pushAll (SegQueue.new T) l).segs⟩ : SegQueue T) =
      SegQueue.pushAll (SegQueue.new T) l := rfl
  rw [heta2] at hfin
  refine ⟨hfin.1, ?_⟩
  have hpop := (pop_sim _ hfin.2.1).1 hfin.2.2
  unfold SegQueue.try_pop
  rw [hpop]

end Crossbeam
